import Mathlib

/-!
Verification of the normalization + data-quality pipeline of the
real-estate-scraping repository: a shallow embedding, in Lean 4, of
`src/utils/text_parser.py` (class JapaneseTextParser),
`src/utils/data_processor.py` (class DataProcessor) and
`src/utils/data_quality.py` (class DataQualityChecker), together with
theorems settling the specification claims about them.

Modelling conventions:
* Python strings are `String`/`List Char`.  Character classes (`\d`, `\s`,
  `str.upper`, NFKC) are modelled by explicit tables that are faithful on the
  character repertoire the pipeline manipulates (ASCII, the Japanese glyphs
  appearing in the source, and the full-width forms ０-９Ａ-Ｚａ-ｚ．，＋￥
  and the ideographic space); characters outside the table are left unchanged.
* Python floats are modelled as exact rationals plus an `inf` value: a decimal
  literal whose value reaches `2^1024` parses to `inf` (CPython's `float(str)`
  overflows silently to `inf`), and `int(inf)` raises `OverflowError`.
  Rounding of in-range values is not modelled (all claim-relevant values are
  exactly representable).
* Fallible Python code is embedded in `Except PErr`; a `try/except` clause
  catches exactly the error kinds it names.  Absent values (`None`/`NaN`)
  are `Option.none` / `Cell.null`.
* A pandas DataFrame is a `Batch`: an ordered list of named columns of cells.
  A column's dtype is `object` iff it contains a string cell or consists
  entirely of absent cells (mirroring pandas dtype inference on the values the
  pipeline produces).  The quality checker is specified for batches whose
  rule-table columns hold numeric-or-absent cells, mirroring that pandas
  raises on ordered comparisons of strings with numbers.
-/

/-- Python exception kinds distinguished by the pipeline's `except` clauses. -/
inductive PErr where
  | valueError
  | attributeError
  | typeError
  | overflowError
deriving DecidableEq

deriving instance DecidableEq for Except

/-- Characters treated as whitespace by Python's `\s` / `str.strip` on the
modelled repertoire (ASCII whitespace and the ideographic space U+3000). -/
def isPySpace (c : Char) : Bool :=
  c = ' ' || c = '\t' || c = '\n' || c = '\r' ||
  c = Char.ofNat 0x0B || c = Char.ofNat 0x0C || c = Char.ofNat 0x3000

def isAsciiDigit (c : Char) : Bool := '0' ≤ c && c ≤ '9'

/-- Full-width digits ０-９ (U+FF10 – U+FF19), matched by Python's `\d`. -/
def isFwDigit (c : Char) : Bool := 0xFF10 ≤ c.toNat && c.toNat ≤ 0xFF19

/-- Python's `\d` on the modelled repertoire. -/
def isPyDigit (c : Char) : Bool := isAsciiDigit c || isFwDigit c

def digitVal (c : Char) : Nat :=
  if isAsciiDigit c then c.toNat - 0x30 else c.toNat - 0xFF10

/-- Value of a digit string, as computed by Python's `int` (which accepts
full-width digits). -/
def natOfDigits (l : List Char) : Nat :=
  l.foldl (fun a c => a * 10 + digitVal c) 0

/-- Character class `[\d.]` of the rent/area regexes. -/
def isNumDot (c : Char) : Bool := isPyDigit c || c = '.'

/-- Character class `[\d,]` of `JapaneseTextParser.parse_rent`. -/
def isDigitComma (c : Char) : Bool := isPyDigit c || c = ','

/-- `str.upper` on the modelled repertoire (ASCII and full-width letters). -/
def pyUpperChar (c : Char) : Char :=
  if 'a' ≤ c && c ≤ 'z' then Char.ofNat (c.toNat - 0x20)
  else if 0xFF41 ≤ c.toNat && c.toNat ≤ 0xFF5A then Char.ofNat (c.toNat - 0x20)
  else c

/-- `str.maketrans('０１２３４５６７８９', '0123456789')`. -/
def fwDigitToHalf (c : Char) : Char :=
  if isFwDigit c then Char.ofNat (c.toNat - 0xFEE0) else c

/-- NFKC normalization on the modelled repertoire: full-width digits, Latin
letters and the punctuation ．，＋￥ map to their half-width forms, the
ideographic space maps to a plain space; other characters are unchanged. -/
def nfkcChar (c : Char) : Char :=
  if isFwDigit c then Char.ofNat (c.toNat - 0xFEE0)
  else if 0xFF21 ≤ c.toNat && c.toNat ≤ 0xFF3A then Char.ofNat (c.toNat - 0xFEE0)
  else if 0xFF41 ≤ c.toNat && c.toNat ≤ 0xFF5A then Char.ofNat (c.toNat - 0xFEE0)
  else if c.toNat = 0xFF0E then '.'
  else if c.toNat = 0xFF0C then ','
  else if c.toNat = 0xFF0B then '+'
  else if c.toNat = 0xFFE5 then Char.ofNat 0xA5
  else if c.toNat = 0x3000 then ' '
  else c

/-- `str.strip()`: drop leading and trailing whitespace. -/
def stripWS (l : List Char) : List Char :=
  ((l.dropWhile isPySpace).reverse.dropWhile isPySpace).reverse

/-- `str.replace(c, '')` for a single character. -/
def removeChar (c : Char) (l : List Char) : List Char :=
  l.filter (fun x => x ≠ c)

/-- `re.sub(r'\s+', ' ', ·)`: collapse every whitespace run to one space.
The boolean records whether the previous character was whitespace. -/
def collapseWSAux : Bool → List Char → List Char
  | _, [] => []
  | prev, c :: rest =>
    if isPySpace c then
      if prev then collapseWSAux true rest else ' ' :: collapseWSAux true rest
    else c :: collapseWSAux false rest

def collapseWS (l : List Char) : List Char := collapseWSAux false l

/-- `str.replace(pat, '')` for a multi-character pattern: remove the leftmost
non-overlapping occurrences. -/
def removeSub (pat : List Char) : List Char → List Char
  | [] => []
  | c :: rest =>
    if 0 < pat.length ∧ List.take pat.length (c :: rest) = pat then
      removeSub pat (List.drop pat.length (c :: rest))
    else
      c :: removeSub pat rest
termination_by l => l.length
decreasing_by
  · simp only [List.length_drop, List.length_cons]
    omega
  · simp

/-- A Python float: an exact rational or positive infinity. -/
inductive PyFloat where
  | fin (q : ℚ)
  | inf
deriving DecidableEq

/-- Smallest positive value that overflows a double: `float(s)` of a decimal
string whose value reaches this returns `inf` instead of raising.
(`mkRat (2 ^ 1024) 1` is the rational `2 ^ 1024`, written so that the kernel
can evaluate it.) -/
def fMax : ℚ := mkRat (Int.ofNat (2 ^ 1024)) 1

/-- The value of the decimal literal with integer part `ip` and fractional
part `fp` (digit lists): `ip.fp = (ip·10^|fp| + fp) / 10^|fp|`. -/
def decValue (ip fp : List Char) : ℚ :=
  mkRat (Int.ofNat (natOfDigits ip * 10 ^ fp.length + natOfDigits fp)) (10 ^ fp.length)

/-- `float(s)` for a string of digit-or-dot characters (as produced by the
`[\d.]+` regexes): `ValueError` unless there is at least one digit and at most
one dot; values at or beyond the double range give `inf`. -/
def pyFloatOfRun (run : List Char) : Except PErr PyFloat :=
  if !run.any isPyDigit then .error .valueError
  else if 2 ≤ (run.filter (fun c => c = '.')).length then .error .valueError
  else
    let v := decValue (run.takeWhile (fun c => c ≠ '.'))
      ((run.dropWhile (fun c => c ≠ '.')).drop 1)
    if Rat.blt v fMax then .ok (.fin v) else .ok .inf

/-- `v * 10000`, written on the numerator so that the kernel can evaluate it
(`mkRat (v.num * 10000) v.den = v * 10000`, proved in `mul_ten_thousand_eq`). -/
def mulTenThousand (v : ℚ) : ℚ := mkRat (v.num * 10000) v.den

/-- Leftmost match of a regex `(P+)unit` (or `(P+)\s*unit` when `skipWS`):
returns the captured maximal `P`-run that is followed by `unit`. -/
def searchRunUnit (p : Char → Bool) (skipWS : Bool) (unit : Char) :
    List Char → Option (List Char)
  | [] => none
  | c :: rest =>
    if p c then
      let after := List.dropWhile p (c :: rest)
      let after2 := if skipWS then after.dropWhile isPySpace else after
      if after2.head? = some unit then some (List.takeWhile p (c :: rest))
      else searchRunUnit p skipWS unit rest
    else searchRunUnit p skipWS unit rest

/-- Leftmost match of `P+`: the first maximal run of `P` characters. -/
def firstRunWith (p : Char → Bool) : List Char → Option (List Char)
  | [] => none
  | c :: rest =>
    if p c then some (List.takeWhile p (c :: rest)) else firstRunWith p rest

/-- `re.search(r'([\d.]+)万', ·)` of `DataProcessor.normalize_rent`. -/
def manSearchD : List Char → Option (List Char) := searchRunUnit isNumDot false '万'

/-- `re.search(r'([\d.]+)\s*万', ·)` of `JapaneseTextParser.parse_rent`. -/
def manSearchJ : List Char → Option (List Char) := searchRunUnit isNumDot true '万'

/-- `re.search(r'(\d+)分', ·)` of `normalize_station_distance`. -/
def minSearch : List Char → Option (List Char) := searchRunUnit isPyDigit false '分'

/-- `re.search(r'(\d+)ヶ月|(\d+)ヵ月|(\d+)か月', ·)` of `normalize_fees`:
the digit run of the leftmost month-count pattern. -/
def monthSearch : List Char → Option Nat
  | [] => none
  | c :: rest =>
    if isPyDigit c then
      match List.dropWhile isPyDigit (c :: rest) with
      | u :: m :: _ =>
        if (u = 'ヶ' || u = 'ヵ' || u = 'か') && m = '月' then
          some (natOfDigits (List.takeWhile isPyDigit (c :: rest)))
        else monthSearch rest
      | _ => monthSearch rest
    else monthSearch rest

/-! ## JapaneseTextParser (`src/utils/text_parser.py`) -/

/-- `JapaneseTextParser.normalize_text`: NFKC, collapse whitespace runs to a
single space, strip the ends; falsy input gives the empty string. -/
def normalize_text (s : String) : String :=
  if s = "" then ""
  else String.mk (stripWS (collapseWS (s.data.map nfkcChar)))

/-- The cleaned text of `JapaneseTextParser.parse_rent`:
`normalize_text` then `.replace('円','').replace('¥','').replace(',','').strip()`. -/
def jtpCleaned (s : String) : List Char :=
  stripWS (removeChar ',' (removeChar '¥' (removeChar '円' (normalize_text s).data)))

/-- The 万-branch of `JapaneseTextParser.parse_rent`: `int(float(run) * 10000)`,
every exception (bad literal, overflow) caught by the `except Exception`
clause and turned into `None`. -/
def man10000 (run : List Char) : Option Int :=
  match pyFloatOfRun run with
  | .error _ => none
  | .ok .inf => none
  | .ok (.fin v) =>
    if Rat.blt (mulTenThousand v) fMax then some (mulTenThousand v).floor else none

/-- The final branch of `JapaneseTextParser.parse_rent`:
`re.search(r'[\d,]+', ·)` then `int(match.group().replace(',',''))`;
`int('')` raises `ValueError`, caught into `None`. -/
def digitCommaBranch (t : List Char) : Option Int :=
  match firstRunWith isDigitComma t with
  | none => none
  | some run =>
    let ds := run.filter (fun c => c ≠ ',')
    if ds = [] then none else some (natOfDigits ds : Int)

/-- `JapaneseTextParser.parse_rent`: total (its `except Exception` catches
everything), returning `none` for the absent marker. -/
def parse_rent (s : String) : Option Int :=
  if s = "" then none
  else
    let t := jtpCleaned s
    if t.contains '万' then
      match manSearchJ t with
      | some run => man10000 run
      | none => digitCommaBranch t
    else digitCommaBranch t

/-! ## DataProcessor (`src/utils/data_processor.py`) -/

/-- `DataProcessor.floor_plan_mappings`. -/
def floorPlanMappings : List (String × String) :=
  [("１Ｒ", "1R"), ("１Ｋ", "1K"), ("１ＤＫ", "1DK"), ("１ＬＤＫ", "1LDK"),
   ("２Ｋ", "2K"), ("２ＤＫ", "2DK"), ("２ＬＤＫ", "2LDK"), ("２ＬＤＫ＋Ｓ", "2LDK"),
   ("３ＤＫ", "3DK"), ("３ＬＤＫ", "3LDK"), ("４ＬＤＫ", "4LDK"),
   ("1LDK+S", "1LDK"), ("2LDK+S", "2LDK"), ("3LDK+S", "3LDK"),
   ("1SLDK", "1LDK"), ("2SLDK", "2LDK"), ("3SLDK", "3LDK")]

/-- `re.sub(r'\+S$|S(?=[LDK])', '', ·)`: scanning left to right, a literal
`+S` at the very end is removed, and an `S` whose successor is `L`, `D` or `K`
is removed (the lookahead is not consumed). -/
def subS : List Char → List Char
  | '+' :: 'S' :: [] => []
  | 'S' :: c :: rest =>
    if c = 'L' || c = 'D' || c = 'K' then subS (c :: rest)
    else 'S' :: subS (c :: rest)
  | c :: rest => c :: subS rest
  | [] => []

/-- `DataProcessor.normalize_floor_plan`. -/
def normalize_floor_plan (s : String) : String :=
  if s = "" then ""
  else
    let t := String.mk (stripWS (s.data.map pyUpperChar))
    match (floorPlanMappings.find? (fun p => p.1 == t)).map Prod.snd with
    | some v => v
    | none =>
      String.mk ((subS (t.data.map fwDigitToHalf)).filter (fun c => !isPySpace c))

/-- The 万-branch of `DataProcessor.normalize_rent`: a bad numeric literal is
a `ValueError`, caught by the `except (ValueError, AttributeError)` clause
(giving `None`), but `int` of an overflowed (infinite) product raises an
uncaught `OverflowError`. -/
def manMul10000D (run : List Char) : Except PErr (Option Int) :=
  match pyFloatOfRun run with
  | .error _ => .ok none
  | .ok .inf => .error .overflowError
  | .ok (.fin v) =>
    if Rat.blt (mulTenThousand v) fMax then .ok (some (mulTenThousand v).floor)
    else .error .overflowError

/-- The direct branch of `DataProcessor.normalize_rent`:
`re.sub(r'[^\d.]', '', ·)` then `int(float(·))` when non-empty. -/
def directD (t : List Char) : Except PErr (Option Int) :=
  let u := t.filter isNumDot
  if u = [] then .ok none
  else
    match pyFloatOfRun u with
    | .error _ => .ok none
    | .ok .inf => .error .overflowError
    | .ok (.fin v) => .ok (some (Rat.floor v))

/-- `DataProcessor.normalize_rent` on a string cell. -/
def normalize_rent (s : String) : Except PErr (Option Int) :=
  if s = "" ∨ s = "-" then .ok none
  else
    let t := stripWS (removeChar ',' (removeChar '円' (removeChar '¥' s.data)))
    if t.contains '万' then
      match manSearchD t with
      | some run => manMul10000D run
      | none => directD t
    else directD t

/-- `DataProcessor.normalize_area` on a string cell: total (`float` of a
`[\d.]+` run either succeeds — possibly with `inf` — or raises a caught
`ValueError`). -/
def normalize_area (s : String) : Option PyFloat :=
  if s = "" ∨ s = "-" then none
  else
    let t := stripWS (removeSub "平方メートル".data (removeSub "平米".data
      (removeSub "m²".data (removeSub "m2".data (removeSub "㎡".data s.data)))))
    match firstRunWith isNumDot t with
    | none => none
    | some run =>
      match pyFloatOfRun run with
      | .error _ => none
      | .ok v => some v

/-- `DataProcessor.normalize_station_distance` on a string cell. -/
def normalize_station_distance (s : String) : Option Int :=
  if s = "" ∨ s = "-" then none
  else
    match minSearch s.data with
    | some run => some (natOfDigits run : Int)
    | none =>
      let u := s.data.filter isPyDigit
      if u = [] then none else some (natOfDigits u : Int)

/-- The placeholder tokens of `DataProcessor.normalize_fees`. -/
def feeTokens : List String := ["-", "なし", "ナシ", "無し", "無", "0", "０"]

/-- `DataProcessor.normalize_fees` on a string cell. -/
def normalize_fees (s : String) : Except PErr (Option Int) :=
  if s = "" then .ok none
  else if s ∈ feeTokens then .ok (some 0)
  else
    match monthSearch s.data with
    | some n => .ok (some (n : Int))
    | none => normalize_rent s

/-! ## Batches (pandas DataFrames) -/

/-- One DataFrame cell: absent (`None`/`NaN`), a string, an int, a finite
float (exact rational) or float infinity. -/
inductive Cell where
  | null
  | str (s : String)
  | int (n : ℤ)
  | rat (q : ℚ)
  | pinf
deriving DecidableEq

def cellIsNull : Cell → Bool
  | .null => true
  | _ => false

def cellIsStr : Cell → Bool
  | .str _ => true
  | _ => false

/-- The rational value of a numeric cell (`mkRat n 1` is the integer `n`,
written so that the kernel can evaluate it). -/
def cellVal : Cell → ℚ
  | .int n => mkRat n 1
  | .rat q => q
  | _ => 0

/-- `cell < bound` as pandas evaluates it on numeric columns (`NaN` compares
false). -/
def cellLt (c : Cell) (bound : ℚ) : Bool :=
  match c with
  | .int _ | .rat _ => Rat.blt (cellVal c) bound
  | _ => false

/-- `cell > bound` (`inf` exceeds every bound, `NaN` compares false). -/
def cellGt (c : Cell) (bound : ℚ) : Bool :=
  match c with
  | .int _ | .rat _ => Rat.blt bound (cellVal c)
  | .pinf => true
  | _ => false

/-- `cell >= bound`. -/
def cellGe (c : Cell) (bound : ℚ) : Bool :=
  match c with
  | .int _ | .rat _ => !Rat.blt (cellVal c) bound
  | .pinf => true
  | _ => false

/-- `cell <= bound`. -/
def cellLe (c : Cell) (bound : ℚ) : Bool :=
  match c with
  | .int _ | .rat _ => !Rat.blt bound (cellVal c)
  | _ => false

/-- A DataFrame: named columns in order, each a list of cells (all the same
length in any batch a DataFrame can represent). -/
structure Batch where
  cols : List (String × List Cell)
deriving DecidableEq

/-- `col in df.columns` / `df[col]` (column names are unique in a DataFrame). -/
def getCol (b : Batch) (name : String) : Option (List Cell) :=
  (b.cols.find? (fun p => p.1 == name)).map Prod.snd

def hasCol (b : Batch) (name : String) : Bool := (getCol b name).isSome

/-- `len(df)`. -/
def nRows (b : Batch) : Nat :=
  match b.cols with
  | [] => 0
  | p :: _ => p.2.length

/-! ## DataProcessor.process_dataframe -/

/-- A pandas column's dtype is `object` iff it holds a string cell or consists
entirely of absent cells (a list of ints/floats with at least one value is
inferred as `int64`/`float64`). -/
def dtypeObject (cells : List Cell) : Bool :=
  cells.any cellIsStr || cells.all cellIsNull

/-- `normalize_floor_plan` applied to one cell: `None` is falsy (→ `""`), a
numeric cell has no `.upper()` and raises an uncaught `AttributeError`. -/
def floorPlanCell : Cell → Except PErr Cell
  | .null => .ok (.str "")
  | .str s => .ok (.str (normalize_floor_plan s))
  | _ => .error .attributeError

/-- `normalize_rent` applied to one cell: numeric cells fail the string
operations with an `AttributeError` that the handler turns into `None`
(`0` is already falsy). -/
def rentCell : Cell → Except PErr Cell
  | .null => .ok .null
  | .str s =>
    match normalize_rent s with
    | .error e => .error e
    | .ok (some n) => .ok (.int n)
    | .ok none => .ok .null
  | _ => .ok .null

/-- `normalize_area` applied to one cell (same `AttributeError` handling). -/
def areaCell : Cell → Except PErr Cell
  | .null => .ok .null
  | .str s =>
    match normalize_area s with
    | some (.fin q) => .ok (.rat q)
    | some .inf => .ok .pinf
    | none => .ok .null
  | _ => .ok .null

/-- `normalize_station_distance` applied to one cell: a non-falsy numeric cell
reaches `re.search`, which raises an uncaught `TypeError` on non-strings. -/
def stationCell : Cell → Except PErr Cell
  | .null => .ok .null
  | .str s =>
    match normalize_station_distance s with
    | some n => .ok (.int n)
    | none => .ok .null
  | .int n => if n = 0 then .ok .null else .error .typeError
  | .rat q => if q = 0 then .ok .null else .error .typeError
  | .pinf => .error .typeError

/-- `normalize_fees` applied to one cell (non-falsy numeric cells reach
`re.search` → uncaught `TypeError`). -/
def feesCell : Cell → Except PErr Cell
  | .null => .ok .null
  | .str s =>
    match normalize_fees s with
    | .error e => .error e
    | .ok (some n) => .ok (.int n)
    | .ok none => .ok .null
  | .int n => if n = 0 then .ok .null else .error .typeError
  | .rat q => if q = 0 then .ok .null else .error .typeError
  | .pinf => .error .typeError

/-- `Series.apply(f)`: element-wise, aborting at the first raised exception. -/
def applyCells (f : Cell → Except PErr Cell) : List Cell → Except PErr (List Cell)
  | [] => .ok []
  | c :: cs =>
    match f c with
    | .error e => .error e
    | .ok c2 =>
      match applyCells f cs with
      | .error e => .error e
      | .ok cs2 => .ok (c2 :: cs2)

/-- One column of `process_dataframe`: `floor_plan` is normalized
unconditionally; rent / area / station-distance / fee columns only when their
dtype is `object`; other columns pass through. -/
def processCol (name : String) (cells : List Cell) : Except PErr (List Cell) :=
  if name = "floor_plan" then applyCells floorPlanCell cells
  else if name = "rent" then
    if dtypeObject cells then applyCells rentCell cells else .ok cells
  else if name = "area" then
    if dtypeObject cells then applyCells areaCell cells else .ok cells
  else if name = "station_distance" then
    if dtypeObject cells then applyCells stationCell cells else .ok cells
  else if name = "management_fee" ∨ name = "deposit" ∨ name = "key_money" then
    if dtypeObject cells then applyCells feesCell cells else .ok cells
  else .ok cells

def processCols : List (String × List Cell) → Except PErr (List (String × List Cell))
  | [] => .ok []
  | (n, cs) :: rest =>
    match processCol n cs with
    | .error e => .error e
    | .ok cs2 =>
      match processCols rest with
      | .error e => .error e
      | .ok rest2 => .ok ((n, cs2) :: rest2)

/-- `DataProcessor.process_dataframe` (column updates are independent, so the
per-column dispatch is the sequence of in-place column assignments). -/
def process_dataframe (b : Batch) : Except PErr Batch :=
  (processCols b.cols).map Batch.mk

/-! ## DataQualityChecker (`src/utils/data_quality.py`) -/

/-- One row of `DataQualityChecker.validation_rules`: the bounds as rationals,
the bound literals as the cells pandas' `clip` writes (int or float, matching
the Python literal), and their `str()` rendering used in issue messages. -/
structure Rule where
  col : String
  lo : ℚ
  hi : ℚ
  loCell : Cell
  hiCell : Cell
  loStr : String
  hiStr : String
deriving DecidableEq

/-- `DataQualityChecker.validation_rules` (every entry has both a `min` and a
`max`; the `required` flag is never read by the checker). -/
def validationRules : List Rule :=
  [⟨"rent", 10000, 5000000, .int 10000, .int 5000000, "10000", "5000000"⟩,
   ⟨"area", 5, 500, .rat 5, .rat 500, "5.0", "500.0"⟩,
   ⟨"floor_number", -3, 100, .int (-3), .int 100, "-3", "100"⟩,
   ⟨"station_distance", 0, 60, .int 0, .int 60, "0", "60"⟩,
   ⟨"latitude", 24, 46, .rat 24, .rat 46, "24.0", "46.0"⟩,
   ⟨"longitude", 122, 146, .rat 122, .rat 146, "122.0", "146.0"⟩]

/-- `DataQualityChecker.required_columns`. -/
def requiredColumns : List String :=
  ["property_id", "site_name", "url", "title",
   "property_type", "city", "rent", "floor_plan", "area"]

/-- The integer nearest to `a / b` (for `b > 0`), ties to the even integer:
`a.ediv b` is `⌊a / b⌋` and `a.emod b` the nonnegative remainder. -/
def intRoundHalfEven (a : ℤ) (b : ℕ) : ℤ :=
  let f := a.ediv b
  let r := a.emod b
  if 2 * r < (b : ℤ) then f
  else if (b : ℤ) < 2 * r then f + 1
  else if f % 2 = 0 then f else f + 1

/-- Python's `round((c / n) * 100, 2)` exactly: the nearest (ties-to-even)
multiple of 1/100 to `(c / n) * 100`, i.e. `round_half_even(c·10000 / n)`
hundredths. -/
def round2pct (c n : Nat) : ℚ := mkRat (intRoundHalfEven (c * 10000) n) 100

/-- `_check_missing_values` (generalized over `len(df)` for the induction):
every column with at least one absent cell, with its count and rounded
percentage of `n` rows. -/
def checkMissingAux (n : Nat) : List (String × List Cell) → List (String × Nat × ℚ)
  | [] => []
  | (name, cells) :: rest =>
    let c := (cells.filter cellIsNull).length
    if 0 < c then (name, c, round2pct c n) :: checkMissingAux n rest
    else checkMissingAux n rest

def check_missing_values (b : Batch) : List (String × Nat × ℚ) :=
  checkMissingAux (nRows b) b.cols

/-- One outlier-report entry: the row's index, the offending value, the
human-readable issue and the row's `property_id` (or `"N/A"`). -/
structure OutlierEntry where
  idx : Nat
  value : Cell
  issue : String
  property_id : Cell
deriving DecidableEq

/-- `row.get('property_id', 'N/A')` for row `i`. -/
def pidOf (b : Batch) (i : Nat) : Cell :=
  match getCol b "property_id" with
  | some cs => cs.getD i .null
  | none => .str "N/A"

/-- The `below_min` entries of `_check_outliers` for one column, in row order
(`i` is the index of the first cell). -/
def belowEntries (pid : Nat → Cell) (lo : ℚ) (msg : String) :
    Nat → List Cell → List OutlierEntry
  | _, [] => []
  | i, c :: cs =>
    (if cellLt c lo then [⟨i, c, msg, pid i⟩] else []) ++
      belowEntries pid lo msg (i + 1) cs

/-- The `above_max` entries of `_check_outliers` for one column, in row order. -/
def aboveEntries (pid : Nat → Cell) (hi : ℚ) (msg : String) :
    Nat → List Cell → List OutlierEntry
  | _, [] => []
  | i, c :: cs =>
    (if cellGt c hi then [⟨i, c, msg, pid i⟩] else []) ++
      aboveEntries pid hi msg (i + 1) cs

def belowMsg (r : Rule) : String := "Below minimum (" ++ r.loStr ++ ")"

def aboveMsg (r : Rule) : String := "Above maximum (" ++ r.hiStr ++ ")"

/-- `_check_outliers` for one rule: `None` when the column is absent or clean;
otherwise the below-minimum entries followed by the above-maximum entries,
truncated to the first 10. -/
def outliersOfRule (b : Batch) (r : Rule) : Option (String × List OutlierEntry) :=
  match getCol b r.col with
  | none => none
  | some cells =>
    let es := belowEntries (pidOf b) r.lo (belowMsg r) 0 cells ++
              aboveEntries (pidOf b) r.hi (aboveMsg r) 0 cells
    if es = [] then none else some (r.col, es.take 10)

def check_outliers (b : Batch) : List (String × List OutlierEntry) :=
  validationRules.filterMap (outliersOfRule b)

/-- `df.duplicated(subset=[name])` is non-empty: some value (absent values
compare equal) occurs in the column more than once. -/
def dupOn (b : Batch) (name : String) : Bool :=
  match getCol b name with
  | some cs => decide ¬cs.Nodup
  | none => false

/-- The fields of the quality report that the claims are about (the
descriptive-statistics summary is never read back by the pipeline). -/
structure Report where
  total_records : Nat
  missing_columns : List String
  missing_values : List (String × Nat × ℚ)
  outliers : List (String × List OutlierEntry)
  dup_property_id : Bool
  dup_url : Bool
  quality_score : ℚ
deriving DecidableEq

/-- `_calculate_quality_score`: 100, minus `min(10, pct)` for each required
column present in the missing-value report, minus `min(20, 2·#outlier
columns)`, minus 10 / 5 for duplicate ids / urls, clamped to [0, 100]. -/
def calculate_quality_score (missing_values : List (String × Nat × ℚ))
    (outliers : List (String × List OutlierEntry))
    (dupId dupUrl : Bool) : ℚ :=
  let ded := (requiredColumns.map (fun col =>
    match missing_values.find? (fun e => e.1 == col) with
    | some e => min 10 e.2.2
    | none => 0)).sum
  let outPen : ℚ := min 20 ((outliers.length : ℚ) * 2)
  let dupPen : ℚ := (if dupId then 10 else 0) + (if dupUrl then 5 else 0)
  max 0 (min 100 (100 - ded - outPen - dupPen))

/-- `DataQualityChecker.check_data_quality`. -/
def check_data_quality (b : Batch) : Report :=
  { total_records := nRows b
    missing_columns := requiredColumns.filter (fun c => !hasCol b c)
    missing_values := check_missing_values b
    outliers := check_outliers b
    dup_property_id := dupOn b "property_id"
    dup_url := dupOn b "url"
    quality_score := calculate_quality_score (check_missing_values b)
      (check_outliers b) (dupOn b "property_id") (dupOn b "url") }

/-! ## DataQualityChecker.fix_common_issues -/

/-- Filter every column of a batch by one boolean row mask. -/
def maskFilter (mask : List Bool) (b : Batch) : Batch :=
  ⟨b.cols.map (fun p =>
    (p.1, (p.2.zip mask).filterMap (fun q => if q.2 then some q.1 else none)))⟩

def rowsOf (b : Batch) : List (List Cell) :=
  (List.range (nRows b)).map (fun i => b.cols.map (fun p => p.2.getD i .null))

/-- Row mask keeping the first occurrence of each full row
(`df.drop_duplicates()`; pandas treats `NaN` as equal here). -/
def firstOccMask (seen : List (List Cell)) : List (List Cell) → List Bool
  | [] => []
  | r :: rest => decide (r ∉ seen) :: firstOccMask (r :: seen) rest

def dropDuplicateRows (b : Batch) : Batch :=
  maskFilter (firstOccMask [] (rowsOf b)) b

/-- `df = df[df[col].notna()]` for each required column present, in order. -/
def dropMissingRequired (b : Batch) : Batch :=
  requiredColumns.foldl (fun acc col =>
    match getCol acc col with
    | some cells => maskFilter (cells.map (fun c => !cellIsNull c)) acc
    | none => acc) b

/-- `Series.clip(lower, upper)` on one cell (`NaN` is preserved, `inf` clips
to the upper bound). -/
def clipCell (r : Rule) (c : Cell) : Cell :=
  match c with
  | .null => .null
  | .str s => .str s
  | .int n => if cellLt (.int n) r.lo then r.loCell
              else if cellGt (.int n) r.hi then r.hiCell else .int n
  | .rat q => if cellLt (.rat q) r.lo then r.loCell
              else if cellGt (.rat q) r.hi then r.hiCell else .rat q
  | .pinf => r.hiCell

/-- The clipping pass of `fix_common_issues`: every rule-table column present
is clipped into its `[min, max]` range. -/
def clipStep (b : Batch) : Batch :=
  ⟨b.cols.map (fun p =>
    match validationRules.find? (fun r => r.col == p.1) with
    | some r => (p.1, p.2.map (clipCell r))
    | none => p)⟩

/-- The coordinate pass of `fix_common_issues`: when both coordinate columns
exist, keep rows inside Japan's bounding box or with an absent coordinate. -/
def coordFilter (b : Batch) : Batch :=
  match getCol b "latitude", getCol b "longitude" with
  | some lats, some lons =>
    maskFilter ((lats.zip lons).map (fun p =>
      (cellGe p.1 24 && cellLe p.1 46 && cellGe p.2 122 && cellLe p.2 146)
        || cellIsNull p.1 || cellIsNull p.2)) b
  | _, _ => b

/-- `DataQualityChecker.fix_common_issues`: drop duplicate rows, drop rows
with an absent required value, clip rule-table columns, then filter on the
(already clipped) coordinates. -/
def fix_common_issues (b : Batch) : Batch :=
  coordFilter (clipStep (dropMissingRequired (dropDuplicateRows b)))

/-! ## Claim-side formulations

Independent re-statements of spec-claim quantities, used on the right-hand
sides of the claim theorems and compared against the embedding. -/

/-- The claim's canonical floor-plan alphabet: half-width digits and the
letters of the groups R, K, DK, LDK. -/
def canonicalChar (c : Char) : Bool :=
  isAsciiDigit c || c = 'R' || c = 'K' || c = 'D' || c = 'L'

/-- Column names of a batch are distinct (always true of a DataFrame). -/
def colNamesNodup (b : Batch) : Prop := (b.cols.map Prod.fst).Nodup

/-- Every rule-table column present holds only numeric-or-absent cells (the
checker's domain: pandas raises on ordered comparisons of strings). -/
def numericRules (b : Batch) : Bool :=
  validationRules.all (fun r =>
    match getCol b r.col with
    | some cells => cells.all (fun c => !cellIsStr c)
    | none => true)

/-- No absent cell anywhere in the batch. -/
def noMissingCells (b : Batch) : Bool :=
  b.cols.all (fun p => p.2.all (fun c => !cellIsNull c))

/-- No rule-table column present has a below-minimum or above-maximum value. -/
def cleanForRules (b : Batch) : Bool :=
  validationRules.all (fun r =>
    match getCol b r.col with
    | some cells => cells.all (fun c => !(cellLt c r.lo || cellGt c r.hi))
    | none => true)

/-- The claim's per-required-column missing-value penalty:
`min(10, recorded percentage)` when the column is present with at least one
absent cell, `0` otherwise. -/
def colMissingPenalty (b : Batch) (col : String) : ℚ :=
  match getCol b col with
  | some cells =>
    let c := (cells.filter cellIsNull).length
    if 0 < c then min 10 (round2pct c (nRows b)) else 0
  | none => 0

/-- The number of rule-table columns present in the batch with at least one
out-of-range value. -/
def outlierColsCount (b : Batch) : Nat :=
  (validationRules.filter (fun r =>
    match getCol b r.col with
    | some cells => cells.any (fun c => cellLt c r.lo || cellGt c r.hi)
    | none => false)).length

/-- `check`'s per-column outlier list for a column name, as a caller reads it
from the report. -/
def outliersFor (b : Batch) (col : String) : Option (List OutlierEntry) :=
  ((check_outliers b).find? (fun p => p.1 == col)).map Prod.snd

/-- The claim's reading of a column's below-minimum rows: the out-of-range
rows in original row order, as (index, value) pairs of the enumerated column. -/
def belowListSpec (b : Batch) (r : Rule) (cells : List Cell) : List OutlierEntry :=
  (cells.enum.filter (fun p => cellLt p.2 r.lo)).map
    (fun p => ⟨p.1, p.2, belowMsg r, pidOf b p.1⟩)

/-- The claim's reading of a column's above-maximum rows, in row order. -/
def aboveListSpec (b : Batch) (r : Rule) (cells : List Cell) : List OutlierEntry :=
  (cells.enum.filter (fun p => cellGt p.2 r.hi)).map
    (fun p => ⟨p.1, p.2, aboveMsg r, pidOf b p.1⟩)

/-- Claim C9's asserted value of the per-column outlier list: the first 10
out-of-range rows in original row order (below/above interleaved by row). -/
def rowOrderedOutliers (b : Batch) (r : Rule) (cells : List Cell) : List OutlierEntry :=
  ((cells.enum.filter (fun p => cellLt p.2 r.lo || cellGt p.2 r.hi)).map
    (fun p => ⟨p.1, p.2, if cellLt p.2 r.lo then belowMsg r else aboveMsg r, pidOf b p.1⟩)).take 10

/-- A floor-plan cell already normalized: a string fixed by
`normalize_floor_plan`. -/
def cellFPFixed (c : Cell) : Bool :=
  match c with
  | .str s => normalize_floor_plan s == s
  | _ => false

/-- Every `floor_plan` column of the batch holds only normalized string
cells. -/
def floorPlanFixed (b : Batch) : Bool :=
  b.cols.all (fun p => if p.1 = "floor_plan" then p.2.all cellFPFixed else true)

/-! ## Claim theorems -/

set_option maxRecDepth 20000 in
/-- C1: the claim says `fix` drops the row with latitude 100.0 / longitude
200.0.  It does not: the clipping pass runs first and pulls both coordinates
into Japan's bounding box (latitude and longitude both carry `min`/`max`
rules), so the subsequent invalid-coordinate filter finds nothing to drop —
on a two-row batch with one geographically impossible row, `fix` keeps both
rows and the offending row survives with coordinates clipped to
(46.0, 146.0). -/
theorem fix_keeps_clipped_invalid_coordinates :
    nRows (fix_common_issues ⟨[
      ("property_id", [.str "001", .str "002"]),
      ("site_name", [.str "SUUMO", .str "SUUMO"]),
      ("url", [.str "u1", .str "u2"]),
      ("title", [.str "t1", .str "t2"]),
      ("property_type", [.str "mansion", .str "mansion"]),
      ("city", [.str "shibuya", .str "shibuya"]),
      ("rent", [.int 125000, .int 150000]),
      ("floor_plan", [.str "1LDK", .str "2LDK"]),
      ("area", [.rat 35, .rat 40]),
      ("latitude", [.rat 35, .rat 100]),
      ("longitude", [.rat 139, .rat 200])]⟩) = 2 ∧
    getCol (fix_common_issues ⟨[
      ("property_id", [.str "001", .str "002"]),
      ("site_name", [.str "SUUMO", .str "SUUMO"]),
      ("url", [.str "u1", .str "u2"]),
      ("title", [.str "t1", .str "t2"]),
      ("property_type", [.str "mansion", .str "mansion"]),
      ("city", [.str "shibuya", .str "shibuya"]),
      ("rent", [.int 125000, .int 150000]),
      ("floor_plan", [.str "1LDK", .str "2LDK"]),
      ("area", [.rat 35, .rat 40]),
      ("latitude", [.rat 35, .rat 100]),
      ("longitude", [.rat 139, .rat 200])]⟩) "latitude" = some [.rat 35, .rat 46] ∧
    getCol (fix_common_issues ⟨[
      ("property_id", [.str "001", .str "002"]),
      ("site_name", [.str "SUUMO", .str "SUUMO"]),
      ("url", [.str "u1", .str "u2"]),
      ("title", [.str "t1", .str "t2"]),
      ("property_type", [.str "mansion", .str "mansion"]),
      ("city", [.str "shibuya", .str "shibuya"]),
      ("rent", [.int 125000, .int 150000]),
      ("floor_plan", [.str "1LDK", .str "2LDK"]),
      ("area", [.rat 35, .rat 40]),
      ("latitude", [.rat 35, .rat 100]),
      ("longitude", [.rat 139, .rat 200])]⟩) "longitude" = some [.rat 139, .rat 146] := by
  refine ⟨by decide, by decide, by decide⟩

/-- C2 counterexample: re-normalizing a normalized batch is not a no-op.
The floor-plan column is re-processed unconditionally, and
`normalize_floor_plan` is not idempotent: on `"1+S+S"` the first pass removes
only the final `+S` (the regex consumes the match non-overlappingly), leaving
`"1+S"`, which a second pass reduces to `"1"`. -/
theorem process_dataframe_not_idempotent :
    process_dataframe ⟨[("floor_plan", [.str "1+S+S"])]⟩ =
      .ok ⟨[("floor_plan", [.str "1+S"])]⟩ ∧
    process_dataframe ⟨[("floor_plan", [.str "1+S"])]⟩ =
      .ok ⟨[("floor_plan", [.str "1"])]⟩ ∧
    (Batch.mk [("floor_plan", [.str "1"])]) ≠ ⟨[("floor_plan", [.str "1+S"])]⟩ := by
  refine ⟨by decide, by decide, by decide⟩

/-- C3 counterexample: the output alphabet of `normalize_floor_plan` is not
confined to digits and R/K/D/L — a character with no rule passes through
unchanged, e.g. `"+"` maps to `"+"`. -/
theorem normalize_floor_plan_alphabet_counterexample :
    normalize_floor_plan "+" = "+" ∧
    ((normalize_floor_plan "+").data.all canonicalChar) = false := by
  refine ⟨by decide, by decide⟩

/-- C3 amended: empty input yields the empty string, and for every key of the
floor-plan mapping table the output is drawn from the canonical alphabet
(digits and the letters R, K, D, L); arbitrary inputs, however, may keep
characters outside that alphabet. -/
theorem normalize_floor_plan_alphabet_amended :
    normalize_floor_plan "" = "" ∧
    ∀ p ∈ floorPlanMappings, ((normalize_floor_plan p.1).data.all canonicalChar) = true := by
  refine ⟨by decide, by decide⟩

/-- Witness for `normalize_floor_plan_alphabet_amended` at the table entry
１ＬＤＫ → 1LDK. -/
theorem normalize_floor_plan_alphabet_witness :
    ("１ＬＤＫ", "1LDK") ∈ floorPlanMappings ∧
    ((normalize_floor_plan "１ＬＤＫ").data.all canonicalChar) = true :=
  ⟨by decide, normalize_floor_plan_alphabet_amended.2 ("１ＬＤＫ", "1LDK") (by decide)⟩

set_option maxRecDepth 20000 in
/-- C4: `DataProcessor.normalize_rent` is not total.  On a 310-digit string
(value 10^309) the cleaned digit run is fed to `int(float(run))`; `float`
overflows silently to `inf` and `int(inf)` raises `OverflowError`, which the
`except (ValueError, AttributeError)` clause does not catch. -/
theorem normalize_rent_overflow_raises :
    normalize_rent (String.mk ('1' :: List.replicate 309 '0')) =
      .error .overflowError := by decide

/-- C7 counterexample: `parse_rent` does not return absent exactly on
empty / `"-"` / digit-free input — `".万1"` contains the digit `1` yet
parses to absent, because the 万-branch captures the dots-only token `"."`,
`float(".")` raises, and the `except Exception` clause returns `None`
without ever reaching the digit-run branch. -/
theorem parse_rent_absent_counterexample :
    parse_rent ".万1" = none ∧
    ".万1" ≠ "" ∧ ".万1" ≠ "-" ∧ (".万1".data.any isPyDigit) = true := by
  refine ⟨by decide, by decide, by decide, by decide⟩

/-- C9 counterexample: the per-column outlier list is not in original row
order — on rent `[6000000, 5]` the checker lists the below-minimum row 1
before the above-maximum row 0, whereas the claim's row-ordered reading
lists row 0 first. -/
theorem check_outliers_order_counterexample :
    outliersFor ⟨[("property_id", [.str "a", .str "b"]),
                  ("rent", [.int 6000000, .int 5])]⟩ "rent" =
      some [⟨1, .int 5, "Below minimum (10000)", .str "b"⟩,
            ⟨0, .int 6000000, "Above maximum (5000000)", .str "a"⟩] ∧
    rowOrderedOutliers ⟨[("property_id", [.str "a", .str "b"]),
                         ("rent", [.int 6000000, .int 5])]⟩
        ⟨"rent", 10000, 5000000, .int 10000, .int 5000000, "10000", "5000000"⟩
        [.int 6000000, .int 5] =
      [⟨0, .int 6000000, "Above maximum (5000000)", .str "a"⟩,
       ⟨1, .int 5, "Below minimum (10000)", .str "b"⟩] ∧
    outliersFor ⟨[("property_id", [.str "a", .str "b"]),
                  ("rent", [.int 6000000, .int 5])]⟩ "rent" ≠
      some (rowOrderedOutliers ⟨[("property_id", [.str "a", .str "b"]),
                                 ("rent", [.int 6000000, .int 5])]⟩
        ⟨"rent", 10000, 5000000, .int 10000, .int 5000000, "10000", "5000000"⟩
        [.int 6000000, .int 5]) := by
  refine ⟨by decide, by decide, by decide⟩

/-- C6 counterexample: the quality score is not monotone under introducing
missing values.  On a 2-row batch whose rent column has one absent cell and
one above-maximum value the score is 88 (−10 missing, capped; −2 outlier
column); blanking the outlier as well gives 90 (−10 missing, no outlier) —
the degraded batch scores higher. -/
theorem quality_score_not_monotone :
    (check_data_quality ⟨[("property_id", [.str "a", .str "b"]),
                          ("rent", [.null, .int 6000000])]⟩).quality_score = 88 ∧
    (check_data_quality ⟨[("property_id", [.str "a", .str "b"]),
                          ("rent", [.null, .null])]⟩).quality_score = 90 ∧
    ((88 : ℚ) < 90) := by
  refine ⟨?_, ?_, by norm_num⟩
  · have h1 : check_missing_values ⟨[("property_id", [.str "a", .str "b"]),
        ("rent", [.null, .int 6000000])]⟩ = [("rent", 1, 50)] := by decide
    have h2 : check_outliers ⟨[("property_id", [.str "a", .str "b"]),
        ("rent", [.null, .int 6000000])]⟩ =
        [("rent", [⟨1, .int 6000000, "Above maximum (5000000)", .str "b"⟩])] := by decide
    have h3 : dupOn ⟨[("property_id", [.str "a", .str "b"]),
        ("rent", [.null, .int 6000000])]⟩ "property_id" = false := by decide
    have h4 : dupOn ⟨[("property_id", [.str "a", .str "b"]),
        ("rent", [.null, .int 6000000])]⟩ "url" = false := by decide
    have hmap : (requiredColumns.map (fun col =>
        match List.find? (fun e => e.1 == col) [("rent", (1 : ℕ), (50 : ℚ))] with
        | some e => min 10 e.2.2
        | none => 0)) = [0, 0, 0, 0, 0, 0, 10, 0, 0] := by decide
    simp only [check_data_quality, h1, h2, h3, h4]
    simp only [calculate_quality_score, hmap]
    norm_num
  · have h1 : check_missing_values ⟨[("property_id", [.str "a", .str "b"]),
        ("rent", [.null, .null])]⟩ = [("rent", 2, 100)] := by decide
    have h2 : check_outliers ⟨[("property_id", [.str "a", .str "b"]),
        ("rent", [.null, .null])]⟩ = [] := by decide
    have h3 : dupOn ⟨[("property_id", [.str "a", .str "b"]),
        ("rent", [.null, .null])]⟩ "property_id" = false := by decide
    have h4 : dupOn ⟨[("property_id", [.str "a", .str "b"]),
        ("rent", [.null, .null])]⟩ "url" = false := by decide
    have hmap : (requiredColumns.map (fun col =>
        match List.find? (fun e => e.1 == col) [("rent", (2 : ℕ), (100 : ℚ))] with
        | some e => min 10 e.2.2
        | none => 0)) = [0, 0, 0, 0, 0, 0, 10, 0, 0] := by decide
    simp only [check_data_quality, h1, h2, h3, h4]
    simp only [calculate_quality_score, hmap]
    norm_num

/-- C6 amended: for every batch in the checker's domain the quality score
lies in [0, 100] (the monotonicity half of the claim is refuted by
`quality_score_not_monotone`). -/
theorem quality_score_range (b : Batch) (_h : numericRules b = true) :
    0 ≤ (check_data_quality b).quality_score ∧
    (check_data_quality b).quality_score ≤ 100 := by
  simp only [check_data_quality, calculate_quality_score]
  exact ⟨le_max_left 0 _, max_le (by norm_num) (min_le_left _ _)⟩

/-- Witness for `quality_score_range` on a one-row batch. -/
theorem quality_score_range_witness :
    numericRules ⟨[("rent", [Cell.int 125000])]⟩ = true ∧
    (0 ≤ (check_data_quality ⟨[("rent", [Cell.int 125000])]⟩).quality_score ∧
     (check_data_quality ⟨[("rent", [Cell.int 125000])]⟩).quality_score ≤ 100) :=
  ⟨by decide, quality_score_range _ (by decide)⟩

/-- C8: `normalize_fees` maps the placeholder tokens to 0, a month-count
pattern `Nヶ月`/`Nヵ月`/`Nか月` to the integer N, the empty string to absent
(distinct from the tokens), and delegates every other string to the rent
parser (`DataProcessor.normalize_rent`, the spec's `parse_rent`). -/
theorem normalize_fees_spec :
    normalize_fees "" = .ok none ∧
    (∀ t ∈ feeTokens, normalize_fees t = .ok (some 0)) ∧
    (∀ s n, ¬s ∈ feeTokens → monthSearch s.data = some n →
      normalize_fees s = .ok (some (n : Int))) ∧
    (∀ s, s ≠ "" → ¬s ∈ feeTokens → monthSearch s.data = none →
      normalize_fees s = normalize_rent s) ∧
    normalize_fees "1ヶ月" = .ok (some 1) ∧
    normalize_fees "2ヵ月" = .ok (some 2) ∧
    normalize_fees "3か月" = .ok (some 3) := by
  refine ⟨by decide, by decide, ?_, ?_, by decide, by decide, by decide⟩
  · intro s n hmem hm
    have hne : s ≠ "" := by
      intro he
      rw [he] at hm
      exact Option.noConfusion hm
    simp only [normalize_fees, if_neg hne, if_neg hmem, hm]
  · intro s hne hmem hm
    simp only [normalize_fees, if_neg hne, if_neg hmem, hm]

/-- Witness for `normalize_fees_spec`: the month branch on a string with a
leading non-token prefix. -/
theorem normalize_fees_spec_witness :
    (¬"敷金1ヶ月" ∈ feeTokens ∧ monthSearch "敷金1ヶ月".data = some 1) ∧
    normalize_fees "敷金1ヶ月" = .ok (some 1) :=
  ⟨⟨by decide, by decide⟩,
   normalize_fees_spec.2.2.1 "敷金1ヶ月" 1 (by decide) (by decide)⟩

/-- A batch with no absent cell yields an empty missing-value report. -/
theorem checkMissingAux_nil_of_no_null (n : ℕ) :
    ∀ cols : List (String × List Cell),
      (∀ p ∈ cols, ∀ c ∈ p.2, cellIsNull c = false) → checkMissingAux n cols = []
  | [], _ => rfl
  | (nm, cells) :: rest, h => by
    have hc : cells.filter cellIsNull = [] := by
      rw [List.filter_eq_nil]
      intro c hcm
      simp [h (nm, cells) (List.mem_cons_self _ _) c hcm]
    have hrest := checkMissingAux_nil_of_no_null n rest
      (fun p hp => h p (List.mem_cons_of_mem _ hp))
    simp [checkMissingAux, hc, hrest]

/-- A column with no below-minimum value has no below-minimum entries. -/
theorem belowEntries_nil (pid : Nat → Cell) (lo : ℚ) (msg : String) :
    ∀ (i : Nat) (cs : List Cell), (∀ c ∈ cs, cellLt c lo = false) →
      belowEntries pid lo msg i cs = []
  | _, [], _ => rfl
  | i, c :: cs, h => by
    have hrest := belowEntries_nil pid lo msg (i + 1) cs
      (fun d hd => h d (List.mem_cons_of_mem _ hd))
    simp [belowEntries, h c (List.mem_cons_self _ _), hrest]

/-- A column with no above-maximum value has no above-maximum entries. -/
theorem aboveEntries_nil (pid : Nat → Cell) (hi : ℚ) (msg : String) :
    ∀ (i : Nat) (cs : List Cell), (∀ c ∈ cs, cellGt c hi = false) →
      aboveEntries pid hi msg i cs = []
  | _, [], _ => rfl
  | i, c :: cs, h => by
    have hrest := aboveEntries_nil pid hi msg (i + 1) cs
      (fun d hd => h d (List.mem_cons_of_mem _ hd))
    simp [aboveEntries, h c (List.mem_cons_self _ _), hrest]

/-- A batch whose rule-table columns are in range yields an empty outlier
report. -/
theorem check_outliers_nil (b : Batch) (h : cleanForRules b = true) :
    check_outliers b = [] := by
  rw [check_outliers, List.filterMap_eq_nil]
  intro r hr
  have hro := List.all_eq_true.mp h r hr
  unfold outliersOfRule
  cases hg : getCol b r.col with
  | none => rfl
  | some cells =>
    rw [hg] at hro
    have hcells : ∀ c ∈ cells, cellLt c r.lo = false ∧ cellGt c r.hi = false := by
      intro c hc
      have := List.all_eq_true.mp hro c hc
      constructor
      · cases hlt : cellLt c r.lo <;> simp_all
      · cases hgt : cellGt c r.hi <;> simp_all
    have hb := belowEntries_nil (pidOf b) r.lo (belowMsg r) 0 cells
      (fun c hc => (hcells c hc).1)
    have ha := aboveEntries_nil (pidOf b) r.hi (aboveMsg r) 0 cells
      (fun c hc => (hcells c hc).2)
    simp [hb, ha]

/-- C10: required columns absent from the schema are recorded as a structural
violation but never touch the score — a batch with no absent cells in its
present columns, no rule-table outliers and no duplicate ids/urls scores 100
no matter how many required columns its schema lacks. -/
theorem missing_columns_score_unaffected (b : Batch)
    (h1 : noMissingCells b = true) (h2 : cleanForRules b = true)
    (h3 : dupOn b "property_id" = false) (h4 : dupOn b "url" = false) :
    (check_data_quality b).quality_score = 100 ∧
    (check_data_quality b).missing_columns =
      requiredColumns.filter (fun c => !hasCol b c) := by
  refine ⟨?_, rfl⟩
  have hm : check_missing_values b = [] := by
    apply checkMissingAux_nil_of_no_null
    intro p hp c hc
    have := List.all_eq_true.mp (List.all_eq_true.mp h1 p hp) c hc
    cases hn : cellIsNull c <;> simp_all
  have ho : check_outliers b = [] := check_outliers_nil b h2
  have hmap : (requiredColumns.map (fun col =>
      match List.find? (fun e => e.1 == col) ([] : List (String × ℕ × ℚ)) with
      | some e => min 10 e.2.2
      | none => 0)) = [0, 0, 0, 0, 0, 0, 0, 0, 0] := by decide
  simp only [check_data_quality, hm, ho, h3, h4]
  simp only [calculate_quality_score, hmap]
  norm_num

/-- Witness for `missing_columns_score_unaffected`: a batch whose schema
lacks every required column still scores 100. -/
theorem missing_columns_score_witness :
    (check_data_quality ⟨[("station_distance", [Cell.int 10])]⟩).quality_score = 100 :=
  (missing_columns_score_unaffected ⟨[("station_distance", [Cell.int 10])]⟩
    (by decide) (by decide) (by decide) (by decide)).1

/-- Every cell of a successful element-wise pass is the image of some input
cell. -/
theorem applyCells_mem (f : Cell → Except PErr Cell) :
    ∀ cs cs', applyCells f cs = .ok cs' → ∀ c' ∈ cs', ∃ c, f c = .ok c'
  | [], cs', h => by
    simp only [applyCells, Except.ok.injEq] at h
    subst h
    intro c' hc'
    cases hc'
  | c :: cs, cs', h => by
    unfold applyCells at h
    cases hf : f c with
    | error e => rw [hf] at h; exact absurd h (by simp)
    | ok c2 =>
      rw [hf] at h
      cases hrec : applyCells f cs with
      | error e => rw [hrec] at h; exact absurd h (by simp)
      | ok cs2 =>
        rw [hrec] at h
        simp only [Except.ok.injEq] at h
        subst h
        intro c' hc'
        rcases List.mem_cons.mp hc' with hc' | hc'
        · exact ⟨c, hc' ▸ hf⟩
        · exact applyCells_mem f cs cs2 hrec c' hc'

/-- A pass that fixes `null` fixes an all-null column. -/
theorem applyCells_nulls (f : Cell → Except PErr Cell)
    (hnull : f .null = .ok .null) :
    ∀ cs, (∀ c ∈ cs, c = .null) → applyCells f cs = .ok cs
  | [], _ => rfl
  | c :: cs, h => by
    have hc := h c (List.mem_cons_self _ _)
    subst hc
    have hrest := applyCells_nulls f hnull cs
      (fun d hd => h d (List.mem_cons_of_mem _ hd))
    simp [applyCells, hnull, hrest]

/-- `normalize_rent` never writes a string cell. -/
theorem rentCell_not_str : ∀ c c', rentCell c = .ok c' → cellIsStr c' = false := by
  intro c c' h
  cases c with
  | str s =>
    simp only [rentCell] at h
    cases hnr : normalize_rent s with
    | error e => rw [hnr] at h; exact absurd h (by simp)
    | ok o =>
      rw [hnr] at h
      cases o with
      | some n => simp only [Except.ok.injEq] at h; subst h; rfl
      | none => simp only [Except.ok.injEq] at h; subst h; rfl
  | null => simp only [rentCell, Except.ok.injEq] at h; subst h; rfl
  | int n => simp only [rentCell, Except.ok.injEq] at h; subst h; rfl
  | rat q => simp only [rentCell, Except.ok.injEq] at h; subst h; rfl
  | pinf => simp only [rentCell, Except.ok.injEq] at h; subst h; rfl

/-- `normalize_area` never writes a string cell. -/
theorem areaCell_not_str : ∀ c c', areaCell c = .ok c' → cellIsStr c' = false := by
  intro c c' h
  cases c with
  | str s =>
    simp only [areaCell] at h
    cases hna : normalize_area s with
    | none => rw [hna] at h; simp only [Except.ok.injEq] at h; subst h; rfl
    | some v =>
      rw [hna] at h
      cases v with
      | fin q => simp only [Except.ok.injEq] at h; subst h; rfl
      | inf => simp only [Except.ok.injEq] at h; subst h; rfl
  | null => simp only [areaCell, Except.ok.injEq] at h; subst h; rfl
  | int n => simp only [areaCell, Except.ok.injEq] at h; subst h; rfl
  | rat q => simp only [areaCell, Except.ok.injEq] at h; subst h; rfl
  | pinf => simp only [areaCell, Except.ok.injEq] at h; subst h; rfl

/-- `normalize_station_distance` never writes a string cell. -/
theorem stationCell_not_str : ∀ c c', stationCell c = .ok c' → cellIsStr c' = false := by
  intro c c' h
  cases c with
  | str s =>
    simp only [stationCell] at h
    cases hns : normalize_station_distance s with
    | none => rw [hns] at h; simp only [Except.ok.injEq] at h; subst h; rfl
    | some n => rw [hns] at h; simp only [Except.ok.injEq] at h; subst h; rfl
  | null => simp only [stationCell, Except.ok.injEq] at h; subst h; rfl
  | int n =>
    simp only [stationCell] at h
    by_cases hn : n = 0
    · rw [if_pos hn] at h; simp only [Except.ok.injEq] at h; subst h; rfl
    · rw [if_neg hn] at h; exact absurd h (by simp)
  | rat q =>
    simp only [stationCell] at h
    by_cases hq : q = 0
    · rw [if_pos hq] at h; simp only [Except.ok.injEq] at h; subst h; rfl
    · rw [if_neg hq] at h; exact absurd h (by simp)
  | pinf => exact absurd h (by simp [stationCell])

/-- `normalize_fees` never writes a string cell. -/
theorem feesCell_not_str : ∀ c c', feesCell c = .ok c' → cellIsStr c' = false := by
  intro c c' h
  cases c with
  | str s =>
    simp only [feesCell] at h
    cases hnf : normalize_fees s with
    | error e => rw [hnf] at h; exact absurd h (by simp)
    | ok o =>
      rw [hnf] at h
      cases o with
      | some n => simp only [Except.ok.injEq] at h; subst h; rfl
      | none => simp only [Except.ok.injEq] at h; subst h; rfl
  | null => simp only [feesCell, Except.ok.injEq] at h; subst h; rfl
  | int n =>
    simp only [feesCell] at h
    by_cases hn : n = 0
    · rw [if_pos hn] at h; simp only [Except.ok.injEq] at h; subst h; rfl
    · rw [if_neg hn] at h; exact absurd h (by simp)
  | rat q =>
    simp only [feesCell] at h
    by_cases hq : q = 0
    · rw [if_pos hq] at h; simp only [Except.ok.injEq] at h; subst h; rfl
    · rw [if_neg hq] at h; exact absurd h (by simp)
  | pinf => exact absurd h (by simp [feesCell])

/-- A dtype-guarded pass whose cell function fixes `null` and never writes a
string is idempotent: the output column is either non-`object` (so skipped on
a second pass) or entirely null (so fixed by a second pass). -/
theorem condPass_idem (f : Cell → Except PErr Cell)
    (hnull : f .null = .ok .null)
    (hns : ∀ c c', f c = .ok c' → cellIsStr c' = false)
    (cs cs' : List Cell)
    (h : (if dtypeObject cs then applyCells f cs else .ok cs) = .ok cs') :
    (if dtypeObject cs' then applyCells f cs' else .ok cs') = .ok cs' := by
  by_cases hd : dtypeObject cs = true
  · rw [if_pos hd] at h
    by_cases hd' : dtypeObject cs' = true
    · rw [if_pos hd']
      have hmem := applyCells_mem f cs cs' h
      have hnostr : cs'.any cellIsStr = false := by
        rw [List.any_eq_false]
        intro c' hc'
        obtain ⟨c, hc⟩ := hmem c' hc'
        simp [hns c c' hc]
      have hallnull : cs'.all cellIsNull = true := by
        unfold dtypeObject at hd'
        rw [hnostr] at hd'
        simpa using hd'
      refine applyCells_nulls f hnull cs' (fun c hc => ?_)
      have := List.all_eq_true.mp hallnull c hc
      cases c <;> simp_all [cellIsNull]
    · rw [if_neg hd']
  · rw [if_neg hd] at h
    simp only [Except.ok.injEq] at h
    subst h
    rw [if_neg hd]

/-- A floor-plan column of already-normalized strings is fixed by the
floor-plan pass. -/
theorem applyCells_fp_fixed :
    ∀ cs, (∀ c ∈ cs, cellFPFixed c = true) → applyCells floorPlanCell cs = .ok cs
  | [], _ => rfl
  | c :: cs, h => by
    have hc := h c (List.mem_cons_self _ _)
    have hrest := applyCells_fp_fixed cs (fun d hd => h d (List.mem_cons_of_mem _ hd))
    cases c with
    | str s =>
      have heq : normalize_floor_plan s = s := by simpa [cellFPFixed] using hc
      simp [applyCells, floorPlanCell, heq, hrest]
    | null => exact absurd hc (by simp [cellFPFixed])
    | int n => exact absurd hc (by simp [cellFPFixed])
    | rat q => exact absurd hc (by simp [cellFPFixed])
    | pinf => exact absurd hc (by simp [cellFPFixed])

/-- One column of `process_dataframe` is idempotent, provided a floor-plan
output consists of normalization fixpoints. -/
theorem processCol_idem (name : String) (cs cs' : List Cell)
    (h : processCol name cs = .ok cs')
    (hfp : name = "floor_plan" → ∀ c ∈ cs', cellFPFixed c = true) :
    processCol name cs' = .ok cs' := by
  unfold processCol at h ⊢
  by_cases h1 : name = "floor_plan"
  · rw [if_pos h1] at h ⊢
    exact applyCells_fp_fixed cs' (hfp h1)
  · rw [if_neg h1] at h ⊢
    by_cases h2 : name = "rent"
    · rw [if_pos h2] at h ⊢
      exact condPass_idem rentCell rfl rentCell_not_str cs cs' h
    · rw [if_neg h2] at h ⊢
      by_cases h3 : name = "area"
      · rw [if_pos h3] at h ⊢
        exact condPass_idem areaCell rfl areaCell_not_str cs cs' h
      · rw [if_neg h3] at h ⊢
        by_cases h4 : name = "station_distance"
        · rw [if_pos h4] at h ⊢
          exact condPass_idem stationCell rfl stationCell_not_str cs cs' h
        · rw [if_neg h4] at h ⊢
          by_cases h5 : name = "management_fee" ∨ name = "deposit" ∨ name = "key_money"
          · rw [if_pos h5] at h ⊢
            exact condPass_idem feesCell rfl feesCell_not_str cs cs' h
          · rw [if_neg h5] at h ⊢

/-- Column-list version of the idempotence argument. -/
theorem processCols_idem :
    ∀ cols cols', processCols cols = .ok cols' →
      (∀ p ∈ cols', p.1 = "floor_plan" → ∀ c ∈ p.2, cellFPFixed c = true) →
      processCols cols' = .ok cols'
  | [], cols', h, _ => by
    simp only [processCols, Except.ok.injEq] at h
    subst h
    rfl
  | (n, cs) :: rest, cols', h, hfp => by
    unfold processCols at h
    cases hpc : processCol n cs with
    | error e => rw [hpc] at h; exact absurd h (by simp)
    | ok cs2 =>
      rw [hpc] at h
      cases hrest : processCols rest with
      | error e => rw [hrest] at h; exact absurd h (by simp)
      | ok rest2 =>
        rw [hrest] at h
        simp only [Except.ok.injEq] at h
        subst h
        have hhead := processCol_idem n cs cs2 hpc
          (fun hn => hfp (n, cs2) (List.mem_cons_self _ _) hn)
        have htail := processCols_idem rest rest2 hrest
          (fun p hp => hfp p (List.mem_cons_of_mem _ hp))
        unfold processCols
        rw [hhead, htail]

/-- C2 amended: re-normalizing changes no cell in any column other than
`floor_plan`; the batch normalizer is idempotent on every batch whose
(unconditionally re-processed) floor-plan cells come out as fixpoints of
`normalize_floor_plan` — in particular on all mapping-table outputs. -/
theorem process_dataframe_idempotent_on_fixed_floor_plans (b b1 : Batch)
    (h : process_dataframe b = .ok b1) (hfp : floorPlanFixed b1 = true) :
    process_dataframe b1 = .ok b1 := by
  unfold process_dataframe at h ⊢
  cases hpc : processCols b.cols with
  | error e => rw [hpc] at h; exact absurd h (by simp [Except.map])
  | ok l =>
    rw [hpc] at h
    have hb1 : b1 = ⟨l⟩ := by
      simp only [Except.map, Except.ok.injEq] at h
      exact h.symm
    subst hb1
    have hfp' : ∀ p ∈ (Batch.mk l).cols, p.1 = "floor_plan" →
        ∀ c ∈ p.2, cellFPFixed c = true := by
      intro p hp hname c hc
      have hall := List.all_eq_true.mp hfp p hp
      rw [if_pos hname] at hall
      exact List.all_eq_true.mp hall c hc
    rw [processCols_idem b.cols l hpc hfp']
    rfl

/-- Witness for `process_dataframe_idempotent_on_fixed_floor_plans`: the
batch holding floor plan 2SLDK normalizes to 2LDK and re-normalizing that is
a no-op. -/
theorem process_dataframe_idempotent_witness :
    process_dataframe ⟨[("floor_plan", [Cell.str "2SLDK"])]⟩ =
      .ok ⟨[("floor_plan", [Cell.str "2LDK"])]⟩ ∧
    floorPlanFixed ⟨[("floor_plan", [Cell.str "2LDK"])]⟩ = true ∧
    process_dataframe ⟨[("floor_plan", [Cell.str "2LDK"])]⟩ =
      .ok ⟨[("floor_plan", [Cell.str "2LDK"])]⟩ :=
  ⟨by decide, by decide,
   process_dataframe_idempotent_on_fixed_floor_plans
     ⟨[("floor_plan", [Cell.str "2SLDK"])]⟩ ⟨[("floor_plan", [Cell.str "2LDK"])]⟩
     (by decide) (by decide)⟩

/-- An outlier-report entry produced for a rule is keyed by that rule's
column. -/
theorem outliersOfRule_key (b : Batch) (r : Rule)
    (pr : String × List OutlierEntry) (h : outliersOfRule b r = some pr) :
    pr.1 = r.col := by
  unfold outliersOfRule at h
  cases hg : getCol b r.col with
  | none => rw [hg] at h; exact absurd h (by simp)
  | some cells =>
    rw [hg] at h
    dsimp only at h
    split at h
    · exact absurd h (by simp)
    · simp only [Option.some.injEq] at h
      rw [← h]

/-- No entry of the outlier report is keyed by a column outside the rule
list. -/
theorem find_outliers_none (b : Batch) :
    ∀ (rules : List Rule) (col : String), (∀ r ∈ rules, r.col ≠ col) →
      (rules.filterMap (outliersOfRule b)).find? (fun p => p.1 == col) = none
  | [], _, _ => rfl
  | r0 :: rest, col, h => by
    simp only [List.filterMap_cons]
    cases ho : outliersOfRule b r0 with
    | none =>
      dsimp only
      exact find_outliers_none b rest col
        (fun r hr => h r (List.mem_cons_of_mem _ hr))
    | some pr =>
      dsimp only
      have hk : pr.1 = r0.col := outliersOfRule_key b r0 pr ho
      have hne : (pr.1 == col) = false := by
        rw [hk]
        exact beq_eq_false_iff_ne.mpr (h r0 (List.mem_cons_self _ _))
      rw [List.find?_cons_of_neg _ (by simp [hne])]
      exact find_outliers_none b rest col
        (fun r hr => h r (List.mem_cons_of_mem _ hr))

/-- Looking a rule's column up in the outlier report gives exactly that
rule's per-column result (rule columns are distinct). -/
theorem find_outliers_eq (b : Batch) :
    ∀ (rules : List Rule), (rules.map Rule.col).Nodup →
      ∀ r ∈ rules,
        (rules.filterMap (outliersOfRule b)).find? (fun p => p.1 == r.col) =
          outliersOfRule b r := by
  intro rules
  induction rules with
  | nil => intro _ r hr; exact absurd hr (List.not_mem_nil r)
  | cons r0 rest ih =>
    intro hnd r hr
    have hnd0 : r0.col ∉ rest.map Rule.col := (List.nodup_cons.mp hnd).1
    have hndr : (rest.map Rule.col).Nodup := (List.nodup_cons.mp hnd).2
    simp only [List.filterMap_cons]
    rcases List.mem_cons.mp hr with hre | hre
    · subst hre
      cases ho : outliersOfRule b r with
      | none =>
        dsimp only
        exact find_outliers_none b rest r.col
          (fun r' hr' he => hnd0 (he ▸ List.mem_map_of_mem Rule.col hr'))
      | some pr =>
        dsimp only
        have hk : pr.1 = r.col := outliersOfRule_key b r pr ho
        rw [List.find?_cons_of_pos _ (by simp [hk])]
    · have hne : r0.col ≠ r.col := by
        intro he
        exact hnd0 (he ▸ List.mem_map_of_mem Rule.col hre)
      cases ho : outliersOfRule b r0 with
      | none =>
        dsimp only
        exact ih hndr r hre
      | some pr =>
        dsimp only
        have hk : pr.1 = r0.col := outliersOfRule_key b r0 pr ho
        rw [List.find?_cons_of_neg _ (by simp [hk, hne])]
        exact ih hndr r hre

/-- The below-minimum entries are the below-minimum rows of the enumerated
column, in row order. -/
theorem belowEntries_eq_spec (pid : Nat → Cell) (lo : ℚ) (msg : String) :
    ∀ (cs : List Cell) (i : Nat),
      belowEntries pid lo msg i cs =
        ((cs.enumFrom i).filter (fun p => cellLt p.2 lo)).map
          (fun p => ⟨p.1, p.2, msg, pid p.1⟩)
  | [], _ => rfl
  | c :: cs, i => by
    rw [belowEntries, List.enumFrom_cons, List.filter_cons,
      belowEntries_eq_spec pid lo msg cs (i + 1)]
    by_cases hlt : cellLt c lo = true
    · simp [hlt]
    · simp [hlt]

/-- The above-maximum entries are the above-maximum rows of the enumerated
column, in row order. -/
theorem aboveEntries_eq_spec (pid : Nat → Cell) (hi : ℚ) (msg : String) :
    ∀ (cs : List Cell) (i : Nat),
      aboveEntries pid hi msg i cs =
        ((cs.enumFrom i).filter (fun p => cellGt p.2 hi)).map
          (fun p => ⟨p.1, p.2, msg, pid p.1⟩)
  | [], _ => rfl
  | c :: cs, i => by
    rw [aboveEntries, List.enumFrom_cons, List.filter_cons,
      aboveEntries_eq_spec pid hi msg cs (i + 1)]
    by_cases hgt : cellGt c hi = true
    · simp [hgt]
    · simp [hgt]

/-- C9 amended: for every rule-table column present, the per-column outlier
list of the report is the below-minimum rows in original row order, followed
by the above-maximum rows in original row order, the concatenation truncated
to its first 10 entries; each entry carries the row's property identifier,
the offending value and the per-bound reason string. -/
theorem check_outliers_amended (b : Batch) (r : Rule) (cells : List Cell)
    (hr : r ∈ validationRules) (hc : getCol b r.col = some cells)
    (_hnum : numericRules b = true) :
    outliersFor b r.col =
      (if belowListSpec b r cells ++ aboveListSpec b r cells = [] then none
       else some ((belowListSpec b r cells ++ aboveListSpec b r cells).take 10)) := by
  have hnd : (validationRules.map Rule.col).Nodup := by decide
  unfold outliersFor check_outliers
  rw [find_outliers_eq b validationRules hnd r hr]
  unfold outliersOfRule
  rw [hc]
  dsimp only
  rw [show belowEntries (pidOf b) r.lo (belowMsg r) 0 cells = belowListSpec b r cells from
      belowEntries_eq_spec (pidOf b) r.lo (belowMsg r) cells 0,
    show aboveEntries (pidOf b) r.hi (aboveMsg r) 0 cells = aboveListSpec b r cells from
      aboveEntries_eq_spec (pidOf b) r.hi (aboveMsg r) cells 0]
  split
  · rfl
  · rfl

/-- Witness for `check_outliers_amended` on the rent column of a two-row
batch. -/
theorem check_outliers_amended_witness :
    outliersFor ⟨[("property_id", [.str "a", .str "b"]),
                  ("rent", [.int 6000000, .int 5])]⟩ "rent" =
      (if belowListSpec ⟨[("property_id", [.str "a", .str "b"]),
                          ("rent", [.int 6000000, .int 5])]⟩
            ⟨"rent", 10000, 5000000, .int 10000, .int 5000000, "10000", "5000000"⟩
            [.int 6000000, .int 5] ++
          aboveListSpec ⟨[("property_id", [.str "a", .str "b"]),
                          ("rent", [.int 6000000, .int 5])]⟩
            ⟨"rent", 10000, 5000000, .int 10000, .int 5000000, "10000", "5000000"⟩
            [.int 6000000, .int 5] = [] then none
       else some ((belowListSpec ⟨[("property_id", [.str "a", .str "b"]),
                          ("rent", [.int 6000000, .int 5])]⟩
            ⟨"rent", 10000, 5000000, .int 10000, .int 5000000, "10000", "5000000"⟩
            [.int 6000000, .int 5] ++
          aboveListSpec ⟨[("property_id", [.str "a", .str "b"]),
                          ("rent", [.int 6000000, .int 5])]⟩
            ⟨"rent", 10000, 5000000, .int 10000, .int 5000000, "10000", "5000000"⟩
            [.int 6000000, .int 5]).take 10)) :=
  check_outliers_amended ⟨[("property_id", [.str "a", .str "b"]),
      ("rent", [.int 6000000, .int 5])]⟩
    ⟨"rent", 10000, 5000000, .int 10000, .int 5000000, "10000", "5000000"⟩
    [.int 6000000, .int 5] (by decide) (by decide) (by decide)

/-- No missing-value entry is keyed by a column outside the batch. -/
theorem find_missing_none (n : ℕ) :
    ∀ (cols : List (String × List Cell)) (col : String),
      (∀ p ∈ cols, p.1 ≠ col) →
      (checkMissingAux n cols).find? (fun e => e.1 == col) = none
  | [], _, _ => rfl
  | (nm, cells) :: rest, col, h => by
    have hnm : nm ≠ col := h (nm, cells) (List.mem_cons_self _ _)
    have hrest := find_missing_none n rest col
      (fun p hp => h p (List.mem_cons_of_mem _ hp))
    simp only [checkMissingAux]
    split
    · rw [List.find?_cons_of_neg _ (by simp [hnm])]
      exact hrest
    · exact hrest

/-- Looking a column up in the missing-value report gives exactly its
per-column penalty contribution (column names are distinct). -/
theorem find_missing_eq (n : ℕ) :
    ∀ (cols : List (String × List Cell)) (col : String),
      (cols.map Prod.fst).Nodup →
      (match (checkMissingAux n cols).find? (fun e => e.1 == col) with
       | some e => min 10 e.2.2
       | none => (0 : ℚ)) =
      (match cols.find? (fun p => p.1 == col) with
       | some p =>
         if 0 < (p.2.filter cellIsNull).length
         then min 10 (round2pct (p.2.filter cellIsNull).length n) else 0
       | none => (0 : ℚ))
  | [], col, _ => rfl
  | (nm, cells) :: rest, col, hnd => by
    have hnd0 : nm ∉ rest.map Prod.fst := (List.nodup_cons.mp hnd).1
    have hndr : (rest.map Prod.fst).Nodup := (List.nodup_cons.mp hnd).2
    by_cases he : nm = col
    · subst he
      rw [List.find?_cons_of_pos _ (by simp)]
      simp only [checkMissingAux]
      by_cases h0 : 0 < (cells.filter cellIsNull).length
      · rw [if_pos h0, if_pos h0, List.find?_cons_of_pos _ (by simp)]
      · rw [if_neg h0, if_neg h0, find_missing_none n rest nm
          (fun p hp hcontr => hnd0 (hcontr ▸ List.mem_map_of_mem Prod.fst hp))]
    · rw [List.find?_cons_of_neg _ (by simp [he])]
      have ih := find_missing_eq n rest col hndr
      simp only [checkMissingAux]
      by_cases h0 : 0 < (cells.filter cellIsNull).length
      · rw [if_pos h0, List.find?_cons_of_neg _ (by simp [he])]
        exact ih
      · rw [if_neg h0]
        exact ih

/-- A column has below-minimum entries exactly when it has a below-minimum
value. -/
theorem belowEntries_nil_iff (pid : Nat → Cell) (lo : ℚ) (msg : String) :
    ∀ (i : Nat) (cs : List Cell),
      belowEntries pid lo msg i cs = [] ↔ ∀ c ∈ cs, cellLt c lo = false
  | _, [] => by simp [belowEntries]
  | i, c :: cs => by
    simp only [belowEntries]
    by_cases hlt : cellLt c lo = true
    · refine iff_of_false (by simp [hlt]) (fun hall => ?_)
      simpa [hlt] using hall c (List.mem_cons_self _ _)
    · rw [List.forall_mem_cons]
      simp [hlt, belowEntries_nil_iff pid lo msg (i + 1) cs]

/-- A column has above-maximum entries exactly when it has an above-maximum
value. -/
theorem aboveEntries_nil_iff (pid : Nat → Cell) (hi : ℚ) (msg : String) :
    ∀ (i : Nat) (cs : List Cell),
      aboveEntries pid hi msg i cs = [] ↔ ∀ c ∈ cs, cellGt c hi = false
  | _, [] => by simp [aboveEntries]
  | i, c :: cs => by
    simp only [aboveEntries]
    by_cases hgt : cellGt c hi = true
    · refine iff_of_false (by simp [hgt]) (fun hall => ?_)
      simpa [hgt] using hall c (List.mem_cons_self _ _)
    · rw [List.forall_mem_cons]
      simp [hgt, aboveEntries_nil_iff pid hi msg (i + 1) cs]

/-- A rule contributes to the outlier report exactly when its column is
present with an out-of-range value. -/
theorem outliersOfRule_isSome (b : Batch) (r : Rule) :
    (outliersOfRule b r).isSome =
      (match getCol b r.col with
       | some cells => cells.any (fun c => cellLt c r.lo || cellGt c r.hi)
       | none => false) := by
  unfold outliersOfRule
  cases hg : getCol b r.col with
  | none => rfl
  | some cells =>
    dsimp only
    split
    · rename_i hes
      rw [List.append_eq_nil] at hes
      have hb := (belowEntries_nil_iff (pidOf b) r.lo (belowMsg r) 0 cells).mp hes.1
      have ha := (aboveEntries_nil_iff (pidOf b) r.hi (aboveMsg r) 0 cells).mp hes.2
      have : cells.any (fun c => cellLt c r.lo || cellGt c r.hi) = false := by
        rw [List.any_eq_false]
        intro c hc
        simp [hb c hc, ha c hc]
      rw [this]
      rfl
    · rename_i hes
      have hany : cells.any (fun c => cellLt c r.lo || cellGt c r.hi) = true := by
        by_contra hcon
        have hall : ∀ c ∈ cells, (cellLt c r.lo || cellGt c r.hi) = false := by
          intro c hc
          cases hx : (cellLt c r.lo || cellGt c r.hi)
          · rfl
          · exact absurd (List.any_eq_true.mpr ⟨c, hc, hx⟩) hcon
        apply hes
        rw [List.append_eq_nil]
        constructor
        · exact (belowEntries_nil_iff (pidOf b) r.lo (belowMsg r) 0 cells).mpr
            (fun c hc => by
              have hboth := hall c hc
              cases hl : cellLt c r.lo
              · rfl
              · rw [hl] at hboth; simp at hboth)
        · exact (aboveEntries_nil_iff (pidOf b) r.hi (aboveMsg r) 0 cells).mpr
            (fun c hc => by
              have hboth := hall c hc
              cases hgt : cellGt c r.hi
              · rfl
              · rw [hgt] at hboth; simp at hboth)
      rw [hany]
      rfl

/-- Length of a `filterMap` through a predicate deciding `isSome`. -/
theorem length_filterMap_eq_filter {α β : Type} (f : α → Option β) (p : α → Bool) :
    ∀ l : List α, (∀ a ∈ l, (f a).isSome = p a) →
      (l.filterMap f).length = (l.filter p).length
  | [], _ => rfl
  | a :: l, h => by
    have ha := h a (List.mem_cons_self _ _)
    have ih := length_filterMap_eq_filter f p l
      (fun x hx => h x (List.mem_cons_of_mem _ hx))
    simp only [List.filterMap_cons, List.filter_cons]
    cases hf : f a with
    | none =>
      rw [hf] at ha
      simp only [Option.isSome_none] at ha
      rw [if_neg (by simp [← ha])]
      exact ih
    | some v =>
      rw [hf] at ha
      simp only [Option.isSome_some] at ha
      rw [if_pos (by simp [← ha])]
      simp [ih]

/-- C5: the quality score of `check` equals 100, minus `min(10, recorded
missing percentage)` per required column with missing values, minus
`min(20, 2 × number of columns with at least one outlier)`, minus 10 for
duplicate property ids and 5 for duplicate urls, clamped to [0, 100]. -/
theorem quality_score_formula (b : Batch) (hnd : colNamesNodup b)
    (_hnum : numericRules b = true) :
    (check_data_quality b).quality_score =
      max 0 (min 100 (100 - (requiredColumns.map (colMissingPenalty b)).sum
        - min 20 (2 * (outlierColsCount b : ℚ))
        - ((if dupOn b "property_id" then 10 else 0) +
           (if dupOn b "url" then 5 else 0)))) := by
  have hmap : requiredColumns.map (fun col =>
      match (check_missing_values b).find? (fun e => e.1 == col) with
      | some e => min 10 e.2.2
      | none => (0 : ℚ)) = requiredColumns.map (colMissingPenalty b) := by
    refine List.map_congr_left (fun col _ => ?_)
    have h1 := find_missing_eq (nRows b) b.cols col hnd
    simp only [check_missing_values]
    rw [h1]
    unfold colMissingPenalty getCol
    cases hf : b.cols.find? (fun p => p.1 == col) with
    | none => rfl
    | some p => rfl
  have hlen : (check_outliers b).length = outlierColsCount b := by
    unfold check_outliers outlierColsCount
    exact length_filterMap_eq_filter (outliersOfRule b) _ validationRules
      (fun r _ => outliersOfRule_isSome b r)
  simp only [check_data_quality, calculate_quality_score]
  rw [hmap, hlen, mul_comm ((outlierColsCount b : ℚ)) 2]

/-- Witness for `quality_score_formula` on a concrete two-row batch with a
missing value and an outlier. -/
theorem quality_score_formula_witness :
    (check_data_quality ⟨[("property_id", [.str "a", .str "b"]),
                          ("rent", [.null, .int 6000000])]⟩).quality_score =
      max 0 (min 100 (100 -
        (requiredColumns.map (colMissingPenalty
          ⟨[("property_id", [.str "a", .str "b"]),
            ("rent", [.null, .int 6000000])]⟩)).sum
        - min 20 (2 * (outlierColsCount
            ⟨[("property_id", [.str "a", .str "b"]),
              ("rent", [.null, .int 6000000])]⟩ : ℚ))
        - ((if dupOn ⟨[("property_id", [.str "a", .str "b"]),
              ("rent", [.null, .int 6000000])]⟩ "property_id" then 10 else 0) +
           (if dupOn ⟨[("property_id", [.str "a", .str "b"]),
              ("rent", [.null, .int 6000000])]⟩ "url" then 5 else 0)))) :=
  quality_score_formula ⟨[("property_id", [.str "a", .str "b"]),
      ("rent", [.null, .int 6000000])]⟩ (by unfold colNamesNodup; decide) (by decide)

/-- Elements of `takeWhile p` satisfy `p` and belong to the list. -/
theorem mem_of_mem_takeWhileP {α : Type} (p : α → Bool) :
    ∀ (l : List α) (c : α), c ∈ l.takeWhile p → p c = true ∧ c ∈ l
  | [], c, h => by simp [List.takeWhile] at h
  | a :: l, c, h => by
    by_cases hp : p a = true
    · rw [List.takeWhile_cons, if_pos hp] at h
      rcases List.mem_cons.mp h with hc | hc
      · exact ⟨hc ▸ hp, hc ▸ List.mem_cons_self _ _⟩
      · obtain ⟨h1, h2⟩ := mem_of_mem_takeWhileP p l c hc
        exact ⟨h1, List.mem_cons_of_mem _ h2⟩
    · rw [List.takeWhile_cons, if_neg hp] at h
      cases h

/-- Elements of `dropWhile p` belong to the list. -/
theorem mem_of_mem_dropWhileP {α : Type} (p : α → Bool) :
    ∀ (l : List α) (c : α), c ∈ l.dropWhile p → c ∈ l
  | [], _, h => h
  | a :: l, c, h => by
    by_cases hp : p a = true
    · rw [List.dropWhile_cons, if_pos hp] at h
      exact List.mem_cons_of_mem _ (mem_of_mem_dropWhileP p l c h)
    · rw [List.dropWhile_cons, if_neg hp] at h
      exact h

/-- Elements of a stripped string belong to the original. -/
theorem mem_of_mem_stripWS (l : List Char) (c : Char) (h : c ∈ stripWS l) :
    c ∈ l := by
  unfold stripWS at h
  rw [List.mem_reverse] at h
  have h2 := mem_of_mem_dropWhileP isPySpace _ c h
  rw [List.mem_reverse] at h2
  exact mem_of_mem_dropWhileP isPySpace l c h2

/-- The cleaned text of `parse_rent` contains no comma (the thousands
separators were removed). -/
theorem comma_not_mem_jtpCleaned (s : String) : ',' ∉ jtpCleaned s := by
  intro h
  have h2 := mem_of_mem_stripWS _ _ h
  unfold removeChar at h2
  rw [List.mem_filter] at h2
  simp at h2

/-- A successful `(P+)\s*unit` search means the unit occurs in the text. -/
theorem searchRunUnit_unit_mem (p : Char → Bool) (ws : Bool) (u : Char) :
    ∀ (l : List Char) (run : List Char),
      searchRunUnit p ws u l = some run → u ∈ l
  | [], _, h => by cases h
  | c :: rest, run, h => by
    simp only [searchRunUnit] at h
    by_cases hp : p c = true
    · rw [if_pos hp] at h
      by_cases hh : ((if ws then
          (List.dropWhile p (c :: rest)).dropWhile isPySpace
          else List.dropWhile p (c :: rest)).head? = some u)
      · have hmem : u ∈ (if ws then
            (List.dropWhile p (c :: rest)).dropWhile isPySpace
            else List.dropWhile p (c :: rest)) := by
          cases hcase : (if ws then
              (List.dropWhile p (c :: rest)).dropWhile isPySpace
              else List.dropWhile p (c :: rest)) with
          | nil => rw [hcase] at hh; cases hh
          | cons a t =>
            rw [hcase] at hh
            simp only [List.head?_cons, Option.some.injEq] at hh
            rw [hh]
            exact List.mem_cons_self _ _
        cases hws : ws
        · rw [hws] at hmem
          simp only [if_neg Bool.false_ne_true] at hmem
          exact mem_of_mem_dropWhileP p _ u hmem
        · rw [hws] at hmem
          simp only [if_pos rfl] at hmem
          exact mem_of_mem_dropWhileP p _ u
            (mem_of_mem_dropWhileP isPySpace _ u hmem)
      · rw [if_neg hh] at h
        exact List.mem_cons_of_mem _ (searchRunUnit_unit_mem p ws u rest run h)
    · rw [if_neg hp] at h
      exact List.mem_cons_of_mem _ (searchRunUnit_unit_mem p ws u rest run h)

/-- `P+` fails to match exactly on `P`-free text. -/
theorem firstRunWith_none_iff (p : Char → Bool) :
    ∀ l : List Char, firstRunWith p l = none ↔ ∀ c ∈ l, p c = false
  | [] => by simp [firstRunWith]
  | c :: rest => by
    simp only [firstRunWith]
    by_cases hp : p c = true
    · rw [if_pos hp]
      refine iff_of_false (by simp) (fun hall => ?_)
      have := hall c (List.mem_cons_self _ _)
      rw [hp] at this
      cases this
    · rw [if_neg hp, List.forall_mem_cons]
      have hc : p c = false := by
        cases hx : p c
        · rfl
        · exact absurd hx hp
      simp [hc, firstRunWith_none_iff p rest]

/-- A successful `P+` match is a non-empty run of `P`-characters from the
text. -/
theorem firstRunWith_some (p : Char → Bool) :
    ∀ (l run : List Char), firstRunWith p l = some run →
      run ≠ [] ∧ ∀ c ∈ run, p c = true ∧ c ∈ l
  | [], _, h => by cases h
  | c :: rest, run, h => by
    simp only [firstRunWith] at h
    by_cases hp : p c = true
    · rw [if_pos hp] at h
      simp only [Option.some.injEq] at h
      subst h
      constructor
      · rw [List.takeWhile_cons, if_pos hp]
        simp
      · exact fun d hd => mem_of_mem_takeWhileP p (c :: rest) d hd
    · rw [if_neg hp] at h
      obtain ⟨h1, h2⟩ := firstRunWith_some p rest run h
      exact ⟨h1, fun d hd => ⟨(h2 d hd).1, List.mem_cons_of_mem _ (h2 d hd).2⟩⟩

/-- The digit-run branch of `parse_rent` returns absent exactly when the
(comma-free) text has no digit. -/
theorem digitCommaBranch_none_iff (t : List Char) (hc : ',' ∉ t) :
    digitCommaBranch t = none ↔ t.any isPyDigit = false := by
  unfold digitCommaBranch
  cases hf : firstRunWith isDigitComma t with
  | none =>
    have hall := (firstRunWith_none_iff isDigitComma t).mp hf
    dsimp only
    refine iff_of_true rfl ?_
    rw [List.any_eq_false]
    intro c hcm
    have hcd := hall c hcm
    unfold isDigitComma at hcd
    cases hd : isPyDigit c
    · simp
    · rw [hd] at hcd; simp at hcd
  | some run =>
    obtain ⟨hne, hprops⟩ := firstRunWith_some isDigitComma t run hf
    have hnocomma : ∀ c ∈ run, c ≠ ',' := fun c hcm he =>
      hc (he ▸ (hprops c hcm).2)
    have hds : run.filter (fun c => c ≠ ',') = run := by
      rw [List.filter_eq_self]
      intro c hcm
      simp [hnocomma c hcm]
    dsimp only
    rw [hds]
    cases hrun : run with
    | nil => exact absurd hrun hne
    | cons a t2 =>
      refine iff_of_false (by simp [hrun]) ?_
      have ha := hprops a (hrun ▸ List.mem_cons_self _ _)
      have hdig : isPyDigit a = true := by
        have h1 := ha.1
        unfold isDigitComma at h1
        have h2 := hnocomma a (hrun ▸ List.mem_cons_self _ _)
        cases hd : isPyDigit a
        · rw [hd] at h1
          simp only [Bool.false_or, decide_eq_true_eq] at h1
          exact absurd h1 h2
        · rfl
      intro hfalse
      rw [List.any_eq_false] at hfalse
      exact absurd hdig (by simp [hfalse a ha.2])

/-- The numerator-level product used in the 万-branch is the ordinary
rational product by 10000. -/
theorem mul_ten_thousand_eq (v : ℚ) : mulTenThousand v = v * 10000 := by
  rw [mulTenThousand, Rat.mkRat_eq_div]
  push_cast
  conv_rhs => rw [← Rat.num_div_den v, div_mul_eq_mul_div]

set_option maxRecDepth 40000 in
/-- C7 amended: `parse_rent` strips currency markers; a parsable finite
numeric token before 万 is multiplied by 10000 and truncated; with no usable
万-token the first digit run of the cleaned text is parsed; and the result is
absent exactly when the input is empty, the 万-token fails (malformed or
overflowing — possible even when digits are present, e.g. `".万1"`), or the
cleaned text has no digit. -/
theorem parse_rent_amended :
    parse_rent "12.5万円" = some 125000 ∧
    parse_rent "125,000円" = some 125000 ∧
    parse_rent "¥125,000" = some 125000 ∧
    parse_rent "-" = none ∧
    (∀ (s : String) (run : List Char) (v : ℚ),
      manSearchJ (jtpCleaned s) = some run → s ≠ "" →
      pyFloatOfRun run = .ok (.fin v) → Rat.blt (mulTenThousand v) fMax = true →
      parse_rent s = some (mulTenThousand v).floor ∧ mulTenThousand v = v * 10000) ∧
    (∀ s : String, s ≠ "" → manSearchJ (jtpCleaned s) = none →
      parse_rent s = digitCommaBranch (jtpCleaned s)) ∧
    (∀ s : String, parse_rent s = none ↔
      (s = "" ∨ match manSearchJ (jtpCleaned s) with
        | some run => man10000 run = none
        | none => ((jtpCleaned s).any isPyDigit) = false)) := by
  refine ⟨by decide, by decide, by decide, by decide, ?_, ?_, ?_⟩
  · intro s run v hm hs hv hlt
    have hcont : (jtpCleaned s).contains '万' = true := by
      have := searchRunUnit_unit_mem isNumDot true '万' (jtpCleaned s) run hm
      simpa [List.contains] using this
    refine ⟨?_, mul_ten_thousand_eq v⟩
    unfold parse_rent
    rw [if_neg hs]
    dsimp only
    rw [hcont, if_pos rfl, hm]
    dsimp only
    unfold man10000
    rw [hv]
    dsimp only
    rw [if_pos hlt]
  · intro s hs hm
    unfold parse_rent
    rw [if_neg hs]
    dsimp only
    by_cases hcont : (jtpCleaned s).contains '万' = true
    · rw [hcont, if_pos rfl, hm]
    · have hfalse : (jtpCleaned s).contains '万' = false := by
        cases hx : (jtpCleaned s).contains '万'
        · rfl
        · exact absurd hx hcont
      rw [hfalse, if_neg (by simp)]
  · intro s
    by_cases hs : s = ""
    · subst hs
      exact iff_of_true rfl (Or.inl rfl)
    · unfold parse_rent
      rw [if_neg hs]
      dsimp only
      cases hm : manSearchJ (jtpCleaned s) with
      | some run =>
        have hcont : (jtpCleaned s).contains '万' = true := by
          have := searchRunUnit_unit_mem isNumDot true '万' (jtpCleaned s) run hm
          simpa [List.contains] using this
        rw [hcont, if_pos rfl]
        dsimp only
        simp [hs]
      | none =>
        have hiff := digitCommaBranch_none_iff (jtpCleaned s) (comma_not_mem_jtpCleaned s)
        by_cases hcont : (jtpCleaned s).contains '万' = true
        · rw [hcont, if_pos rfl]
          dsimp only
          simp only [hs, false_or]
          exact hiff
        · have hfalse : (jtpCleaned s).contains '万' = false := by
            cases hx : (jtpCleaned s).contains '万'
            · rfl
            · exact absurd hx hcont
          rw [hfalse, if_neg (by simp)]
          dsimp only
          simp only [hs, false_or]
          exact hiff

set_option maxRecDepth 40000 in
/-- Witness for `parse_rent_amended`: the 万-branch at `"5万"`. -/
theorem parse_rent_amended_witness :
    (manSearchJ (jtpCleaned "5万") = some ['5'] ∧ "5万" ≠ "" ∧
      pyFloatOfRun ['5'] = .ok (.fin 5) ∧
      Rat.blt (mulTenThousand 5) fMax = true) ∧
    parse_rent "5万" = some (mulTenThousand 5).floor ∧
    mulTenThousand 5 = 5 * 10000 :=
  ⟨⟨by decide, by decide, by decide, by decide⟩,
   parse_rent_amended.2.2.2.2.1 "5万" ['5'] 5
     (by decide) (by decide) (by decide) (by decide)⟩
